import Mathlib

/-!
Verification of the intuition-agent-registry normalization and sync pipeline.

The development shallowly embeds the pure core of the repository:
the JSON flattener `flattenToOneLevel`, the value normalizer
`normalizeFlatValues`, the already-exists error classifier
`isAlreadyExistsError` together with the error branch of the
`POST /v1/mother/agent` handler, the identity resolver built on
`checkUrlExists` and the NFT identifier helpers from
`src/services/nft.ts`, the mint-receipt token extraction
`extractTokenIdFromReceipt`, and the reverse mapper
`mapAtomDetailsToAgentData`.

JavaScript values flowing through these functions are modelled by the
inductive type `Json`; records (plain objects) are association lists in
insertion order, and JS property assignment is `assignKV` (update in
place when the key exists, append otherwise).
-/

/-- Model of a JSON value as handled by the TypeScript code. Plain objects
are association lists in insertion order; numbers are modelled as integers
(the concrete payloads in the specification only use integers). -/
inductive Json where
  | null : Json
  | bool : Bool → Json
  | num : Int → Json
  | str : String → Json
  | arr : List Json → Json
  | obj : List (String × Json) → Json

/-- Keys of an association list, in order. -/
def keysOf (l : List (String × α)) : List String := l.map Prod.fst

/-- Lookup of a key in an association list (first match). -/
def lookupKey (l : List (String × α)) (k : String) : Option α :=
  (l.find? (fun p => p.1 = k)).map Prod.snd

/-- JS property assignment `o[k] = v` on an insertion-ordered record:
an existing key keeps its position and gets the new value, a new key is
appended at the end. -/
def assignKV (res : List (String × α)) (k : String) (v : α) : List (String × α) :=
  if res.any (fun p => p.1 = k) then
    res.map (fun p => if p.1 = k then (k, v) else p)
  else res ++ [(k, v)]

/-- ASCII lower-casing of one character. -/
def asciiToLower (c : Char) : Char :=
  if 65 ≤ c.toNat ∧ c.toNat ≤ 90 then Char.ofNat (c.toNat + 32) else c

/-- Model of `String.prototype.toLowerCase` for the ASCII strings that
flow through the error classifier and address handling. -/
def toLowerStr (s : String) : String :=
  String.mk (s.toList.map asciiToLower)

/-- Model of `String.prototype.trim`: strip leading and trailing
whitespace. -/
def jsTrim (s : String) : String :=
  String.mk (((s.toList.dropWhile Char.isWhitespace).reverse.dropWhile
    Char.isWhitespace).reverse)

/-- Split a character list on a separator character; the result always
has one more part than there are separators. -/
def splitOnCharAux (sep : Char) : List Char → List (List Char)
  | [] => [[]]
  | c :: rest =>
    let r := splitOnCharAux sep rest
    if c = sep then [] :: r
    else
      match r with
      | h :: t => (c :: h) :: t
      | [] => [[c]]

/-- Model of `String.prototype.split` with a one-character separator
(`"a:b:c".split(":") = ["a","b","c"]`, `"".split(":") = [""]`). -/
def jsSplit (s : String) (sep : Char) : List String :=
  (splitOnCharAux sep s.toList).map String.mk

/-- Prefix test on strings (`s.startsWith(p)`). -/
def strHasPrefix (s p : String) : Bool :=
  p.toList.isPrefixOf s.toList

/-- Drop the first `n` characters of a string. -/
def strDrop (s : String) (n : Nat) : String :=
  String.mk (s.toList.drop n)

/-- Model of `s.slice(-n)`: the last `n` characters (the whole string
when it is shorter). -/
def takeRightStr (s : String) (n : Nat) : String :=
  String.mk (s.toList.drop (s.toList.length - n))

/-- JSON string escaping as performed by `JSON.stringify` for the
characters that can occur in this development: quote, backslash and ASCII
control characters get escapes, everything else is kept. -/
def jsonEscapeChar (c : Char) : String :=
  if c.toNat = 34 then "\\\""
  else if c.toNat = 92 then "\\\\"
  else if c.toNat = 10 then "\\n"
  else if c.toNat = 13 then "\\r"
  else if c.toNat = 9 then "\\t"
  else if c.toNat < 32 then
    "\\u00" ++ String.mk [Nat.digitChar (c.toNat / 16), Nat.digitChar (c.toNat % 16)]
  else String.mk [c]

/-- Escape every character of a string for JSON serialization. -/
def jsonEscape (s : String) : String :=
  String.join (s.toList.map jsonEscapeChar)

mutual

/-- Model of `JSON.stringify` on `Json` values (no indentation argument,
as in the source, which calls `JSON.stringify(v)`). -/
def jsonStringify : Json → String
  | Json.null => "null"
  | Json.bool b => cond b "true" "false"
  | Json.num n => toString n
  | Json.str s => "\"" ++ jsonEscape s ++ "\""
  | Json.arr xs => "[" ++ jsonStringifyElems xs ++ "]"
  | Json.obj fs => "\x7b" ++ jsonStringifyFields fs ++ "\x7d"

/-- Comma-separated serialization of array elements. -/
def jsonStringifyElems : List Json → String
  | [] => ""
  | [x] => jsonStringify x
  | x :: y :: rest => jsonStringify x ++ "," ++ jsonStringifyElems (y :: rest)

/-- Comma-separated serialization of object fields. -/
def jsonStringifyFields : List (String × Json) → String
  | [] => ""
  | [(k, v)] => "\"" ++ jsonEscape k ++ "\":" ++ jsonStringify v
  | (k, v) :: y :: rest =>
    "\"" ++ jsonEscape k ++ "\":" ++ jsonStringify v ++ "," ++ jsonStringifyFields (y :: rest)

end

/-- Embeds the arrow `(v) => v && typeof v === "object" ? JSON.stringify(v) : v`
used by `flattenToOneLevel` (src/utils.ts) on array elements: objects and
arrays (the JS values with `typeof === "object"` other than the falsy
`null`) are replaced by their JSON serialization, primitives and `null`
are untouched. -/
def stringifyObjectElement (v : Json) : Json :=
  match v with
  | Json.obj fs => Json.str (jsonStringify (Json.obj fs))
  | Json.arr xs => Json.str (jsonStringify (Json.arr xs))
  | x => x

/-- Key joining of `flattenToOneLevel`:
`const newKey = parentKey ? parentKey + ":" + key : key` (the empty
string is the only falsy JS string). -/
def joinKey (parentKey key : String) : String :=
  if parentKey = "" then key else parentKey ++ ":" ++ key

mutual

/-- Embeds `flattenToOneLevel` from src/utils.ts. Non-object input
returns the accumulated result unchanged; an object input is traversed
entry by entry by `flattenFields`. -/
def flattenToOneLevel : Json → String → List (String × Json) → List (String × Json)
  | Json.obj fields, parentKey, result => flattenFields fields parentKey result
  | _, _, result => result

/-- Embeds the `for (const [key, value] of Object.entries(input))` loop of
`flattenToOneLevel`: every entry is processed by `flattenValue` under its
joined key, in order, threading the shared `result` record. -/
def flattenFields : List (String × Json) → String → List (String × Json) → List (String × Json)
  | [], _, result => result
  | (key, value) :: rest, parentKey, result =>
    flattenFields rest parentKey (flattenValue value (joinKey parentKey key) result)

/-- Embeds the body of the loop of `flattenToOneLevel` for one entry,
already under its joined key `newKey`: truthy object values that are
arrays are stored under `newKey` with object elements stringified, other
objects are recursed into (the call
`flattenToOneLevel(value, newKey, result)` in the source), and primitive
or null values are stored directly under `newKey`. -/
def flattenValue : Json → String → List (String × Json) → List (String × Json)
  | Json.arr xs, newKey, result =>
    assignKV result newKey (Json.arr (xs.map stringifyObjectElement))
  | Json.obj fs, newKey, result => flattenFields fs newKey result
  | v, newKey, result => assignKV result newKey v

end

/-- One entry step of the flattener as described by the specification of
`flattenToOneLevel`: compute the joined key, recurse into plain non-array
objects via `flattenToOneLevel`, keep arrays with object elements
stringified, store primitives directly. Used to state claim C3. -/
def flattenEntry (parentKey : String) (acc : List (String × Json)) (kv : String × Json) :
    List (String × Json) :=
  match kv.2 with
  | Json.obj fs => flattenToOneLevel (Json.obj fs) (joinKey parentKey kv.1) acc
  | Json.arr xs =>
    assignKV acc (joinKey parentKey kv.1) (Json.arr (xs.map stringifyObjectElement))
  | v => assignKV acc (joinKey parentKey kv.1) v

/-- Output value domain of the value normalizer: a string or an array of
strings (`Record<string, string | string[]>`). -/
inductive NormVal where
  | str : String → NormVal
  | list : List String → NormVal
  deriving DecidableEq, Repr

/-- Stringification of one array element inside `normalizeFlatValues`:
`item == null ? "" : string ? item : number or boolean ? String(item)
: JSON.stringify(item)`. -/
def normalizeArrayItem (j : Json) : String :=
  match j with
  | Json.null => ""
  | Json.str s => s
  | Json.num n => toString n
  | Json.bool b => cond b "true" "false"
  | other => jsonStringify other

/-- One iteration of the `for (const [k, v] of Object.entries(flat))`
loop of `normalizeFlatValues`: null values are skipped (the key is
omitted), arrays map each element through `normalizeArrayItem`, strings
pass through, numbers and booleans are stringified with `String(...)`,
and remaining objects are JSON-serialized. -/
def normalizeStep (out : List (String × NormVal)) (kv : String × Json) :
    List (String × NormVal) :=
  match kv.2 with
  | Json.null => out
  | Json.arr xs => assignKV out kv.1 (NormVal.list (xs.map normalizeArrayItem))
  | Json.str s => assignKV out kv.1 (NormVal.str s)
  | Json.num n => assignKV out kv.1 (NormVal.str (toString n))
  | Json.bool b => assignKV out kv.1 (NormVal.str (cond b "true" "false"))
  | Json.obj fs => assignKV out kv.1 (NormVal.str (jsonStringify (Json.obj fs)))

/-- Embeds `normalizeFlatValues` from src/utils.ts: fold
`normalizeStep` over the entries of the flat record. -/
def normalizeFlatValues (flat : List (String × Json)) : List (String × NormVal) :=
  flat.foldl normalizeStep []

/-- A value with no object nesting at all: not a plain object, and an
array only of primitive (non-object, non-array) elements. -/
def isPrimitiveElement (v : Json) : Bool :=
  match v with
  | Json.obj _ => false
  | Json.arr _ => false
  | _ => true

/-- Test for a plain (non-array) JS object. -/
def isPlainObject (v : Json) : Bool :=
  match v with
  | Json.obj _ => true
  | _ => false

/-- A value a one-level object may hold, in the sense of claim C9: not
itself a plain object; arrays are constrained to primitive elements
because the flattener rebuilds array values through
`stringifyObjectElement`. -/
def isOneLevelValue (v : Json) : Bool :=
  match v with
  | Json.obj _ => false
  | Json.arr xs => xs.all isPrimitiveElement
  | _ => true

/-- Substring test modelling `String.prototype.includes`. -/
def strContains (hay needle : String) : Bool :=
  hay.toList.tails.any (fun t => needle.toList.isPrefixOf t)

/-- Model of a thrown JS error as handled by the routes: a message, an
optional `name` and the optional message of a nested `cause`. Throwables
without a `message` property (where the source falls back to
`String(error)`) are outside the model: every modelled error carries its
message directly. -/
structure JsError where
  message : String
  name : Option String
  causeMessage : Option String
  deriving DecidableEq, Repr

/-- Embeds `isAlreadyExistsError` from src/utils.ts: lower-case the
message and test for the substrings `multivault_atomexists` or
`atomexists`; on failure repeat the test on the nested cause message
(empty when absent, as `String(error?.cause?.message || "")`). -/
def isAlreadyExistsError (e : JsError) : Bool :=
  let msg := toLowerStr e.message
  if strContains msg "multivault_atomexists" || strContains msg "atomexists" then true
  else
    let causeMsg := toLowerStr (e.causeMessage.getD "")
    if strContains causeMsg "multivault_atomexists" || strContains causeMsg "atomexists" then
      true
    else false

/-- HTTP response data observable by the caller of the route: status
code, the `success` flag and the `message` field of the JSON body. -/
structure HttpResponse where
  status : Nat
  success : Bool
  message : String
  deriving DecidableEq, Repr

/-- Message of the idempotent no-op response in `POST /v1/mother/agent`. -/
def alreadyExistsMessage : String := "Idempotent no-op: data already exists"

/-- Embeds the error handling of the `POST /v1/mother/agent` handler
(src/routes/mother.ts lines 145-177) for an error thrown by the remote
`sync` call: the inner catch answers 200 with the idempotent no-op
message when `isAlreadyExistsError` holds and rethrows otherwise; the
outer catch then answers 504 when the error is named `AbortError` and
500 otherwise, with `success: false` and the error message (or the
fallback text when the message is empty). -/
def handleAgentSyncError (e : JsError) : HttpResponse :=
  if isAlreadyExistsError e then
    { status := 200, success := true, message := alreadyExistsMessage }
  else if e.name = some "AbortError" then
    { status := 504, success := false,
      message := if e.message = "" then "Unknown error occurred" else e.message }
  else
    { status := 500, success := false,
      message := if e.message = "" then "Unknown error occurred" else e.message }

/-- JS `a || b` on string-or-undefined values: the empty string is the
only falsy string. -/
def jsOrStr (a b : Option String) : Option String :=
  match a with
  | some s => if s = "" then b else some s
  | none => b

/-- JS `label || data` where `data` is a known-present string. -/
def jsOrVal (label : Option String) (data : String) : String :=
  match label with
  | some s => if s = "" then data else s
  | none => data

/-- Model of one entry of `as_subject_triples`: the `data` and `label`
fields of the predicate and of the object, each possibly absent. -/
structure TripleLite where
  predData : Option String
  predLabel : Option String
  objLabel : Option String
  objData : Option String
  deriving DecidableEq, Repr

/-- Value domain of the reverse-mapped agent view: strings, string
arrays, or decoded booleans. -/
inductive AgentVal where
  | str : String → AgentVal
  | strList : List String → AgentVal
  | bool : Bool → AgentVal
  deriving DecidableEq, Repr

/-- Whitelist `fieldsToInclude` of `mapAtomDetailsToAgentData`
(src/utils.ts): the predicates kept in the output. -/
def fieldsToInclude : List String :=
  ["name", "description", "url", "version", "protocolVersion", "agent_card_url",
   "provider:organization", "provider:url", "mint_transaction_hash"]

/-- The `arrayFields` list of `mapAtomDetailsToAgentData`: predicates
meant to accumulate multiple values. -/
def arrayFields : List String := ["authentication:schemes", "skills"]

/-- The `booleanFields` list of `mapAtomDetailsToAgentData`: predicates
meant to decode `"true"`/`"false"` strings. -/
def booleanFields : List String := ["capabilities:stateTransitionHistory"]

/-- Mutable state of the `for (const triple of ...)` loop of
`mapAtomDetailsToAgentData`: the accumulated record, the `tags` array
and the `skillTags` set (kept as an insertion-ordered deduplicated
list, which is exactly what `Array.from` of the set yields). -/
structure MapState where
  agentData : List (String × AgentVal)
  tags : List String
  skillTags : List String
  deriving DecidableEq, Repr

/-- JS truthiness of a looked-up record value, for the
`if (!agentData[predicate])` test: a missing key, an empty string and
`false` are falsy; arrays are always truthy. -/
def agentValTruthy (v : Option AgentVal) : Bool :=
  match v with
  | none => false
  | some (AgentVal.str s) => s ≠ ""
  | some (AgentVal.strList _) => true
  | some (AgentVal.bool b) => b

/-- Insertion-ordered deduplication, modelling
`Array.from(new Set(list))`. -/
def dedupStrings (l : List String) : List String :=
  l.foldl (fun acc x => if x ∈ acc then acc else acc ++ [x]) []

/-- Embeds one iteration of the triple loop of
`mapAtomDetailsToAgentData` (src/utils.ts, the variant whose special
skill predicate is `skill_tags` and whose aggregate output keys are
`tags` and `skillTags`). The JSON-parsing sub-extractor
`extractSkillTagsFromTriple` used by the `skills` arm is passed in as
the parameter `ext`; every theorem below holds for an arbitrary `ext`. -/
def mapAtomTripleStep (ext : TripleLite → List String) (st : MapState) (t : TripleLite) :
    MapState :=
  match jsOrStr t.predData t.predLabel, t.objData with
  | some p, some objectData =>
    if p = "" then st
    else if p = "https://schema.org/keywords" then
      let tagValue := jsOrVal t.objLabel objectData
      if tagValue ≠ "" ∧ tagValue ∉ st.tags then { st with tags := st.tags ++ [tagValue] }
      else st
    else if p = "skill_tags" then
      let value := jsTrim (jsOrVal t.objLabel objectData)
      if value ≠ "" then
        { st with skillTags := if value ∈ st.skillTags then st.skillTags
                               else st.skillTags ++ [value] }
      else st
    else if p ∉ fieldsToInclude then st
    else if p ∈ arrayFields then
      let ensured := if agentValTruthy (lookupKey st.agentData p) then st.agentData
                     else assignKV st.agentData p (AgentVal.strList [])
      if p = "skills" then
        let existing := match lookupKey ensured "skills" with
          | some (AgentVal.strList l) => l
          | _ => []
        { st with agentData :=
            assignKV ensured "skills" (AgentVal.strList (dedupStrings (existing ++ ext t))) }
      else
        let value := jsOrVal t.objLabel objectData
        let current := match lookupKey ensured p with
          | some (AgentVal.strList l) => l
          | _ => []
        if value ∉ current then
          { st with agentData := assignKV ensured p (AgentVal.strList (current ++ [value])) }
        else { st with agentData := ensured }
    else if p ∈ booleanFields then
      if p ∈ keysOf st.agentData then st
      else { st with agentData := assignKV st.agentData p (AgentVal.bool (objectData = "true")) }
    else
      if p ∈ keysOf st.agentData then st
      else { st with agentData := assignKV st.agentData p (AgentVal.str (jsOrVal t.objLabel objectData)) }
  | _, _ => st

/-- Embeds `mapAtomDetailsToAgentData` from src/utils.ts. The input is
the `as_subject_triples` field of the atom details: `none` models a null
or absent field (the `!atomDetails?.as_subject_triples` early return,
taken even before the aggregate keys are added); `some triples` models a
present (possibly empty) array, which in JS is truthy. After the loop
the aggregate `tags` and `skillTags` keys are stored. -/
def mapAtomDetailsToAgentData (ext : TripleLite → List String)
    (asSubjectTriples : Option (List TripleLite)) : List (String × AgentVal) :=
  match asSubjectTriples with
  | none => []
  | some triples =>
    let st := triples.foldl (mapAtomTripleStep ext) ⟨[], [], []⟩
    assignKV (assignKV st.agentData "tags" (AgentVal.strList st.tags))
      "skillTags" (AgentVal.strList st.skillTags)

/-- Parsed components of a composite NFT identifier. -/
structure NftIdParts where
  chainId : String
  contractAddress : String
  tokenId : String
  deriving DecidableEq, Repr

/-- Embeds `parseNftIdentifier` from src/services/nft.ts: split on `:`
and demand exactly three parts. -/
def parseNftIdentifier (nftId : String) : Option NftIdParts :=
  let parts := jsSplit nftId ':'
  if parts.length = 3 then
    some { chainId := parts.headD "", contractAddress := (parts.drop 1).headD "",
           tokenId := (parts.drop 2).headD "" }
  else none

/-- Embeds `isNftIdentifier` from src/services/nft.ts:
`parseNftIdentifier(str) !== null`. -/
def isNftIdentifier (s : String) : Bool :=
  (parseNftIdentifier s).isSome

/-- Hexadecimal digit test (both cases), as used for address and
numeric-literal validity. -/
def isHexChar (c : Char) : Bool :=
  c.isDigit || ('a' ≤ c && c ≤ 'f') || ('A' ≤ c && c ≤ 'F')

/-- Model of `ethers.isAddress`: a `0x`-prefixed string of 40 hex
digits. EIP-55 checksum validation of mixed-case inputs is not
modelled (such inputs are accepted case-insensitively); every claim
proved below only relies on clearly invalid inputs being rejected. -/
def ethersIsAddress (s : String) : Bool :=
  s.length = 42 && strHasPrefix s "0x" && (strDrop s 2).toList.all isHexChar

/-- Model of `!isNaN(Number(s))`: the empty or blank string coerces to
0, otherwise a `0x` hex literal or a decimal literal with optional sign
and at most one dot is finite. Exponent forms are outside the model. -/
def jsNumberParses (s : String) : Bool :=
  let t := jsTrim s
  if t = "" then true
  else if strHasPrefix t "0x" || strHasPrefix t "0X" then
    (strDrop t 2) ≠ "" && (strDrop t 2).toList.all isHexChar
  else
    let u := if strHasPrefix t "+" || strHasPrefix t "-" then strDrop t 1 else t
    match jsSplit u '.' with
    | [a] => a ≠ "" && a.toList.all Char.isDigit
    | [a, b] =>
      (a ++ b) ≠ "" && a.toList.all Char.isDigit && b.toList.all Char.isDigit
    | _ => false

/-- Embeds `validateNftIdentifier` from src/services/nft.ts: parse,
then require a valid contract address and a numeric token id. -/
def validateNftIdentifier (nftId : String) : Bool :=
  match parseNftIdentifier nftId with
  | none => false
  | some parsed =>
    if !ethersIsAddress parsed.contractAddress then false
    else if !jsNumberParses parsed.tokenId then false
    else true

/-- Embeds `formatNftIdentifier` from src/services/nft.ts:
`chainId:contractAddress:tokenId`. -/
def formatNftIdentifier (chainId contractAddress tokenId : String) : String :=
  chainId ++ ":" ++ contractAddress ++ ":" ++ tokenId

/-- Embeds the subject filter of `GET /v1/mother/agents`
(src/routes/mother.ts): `Object.entries(result).filter(([subject]) =>
isNftIdentifier(subject))`, restricted to the subjects. -/
def filterRegistryAgents (subjects : List String) : List String :=
  subjects.filter (fun s => isNftIdentifier s)

/-- Result of `checkUrlExists`; `found` models the TS field `exists`
(a Lean keyword). -/
structure CheckUrlResult where
  found : Bool
  nftId : Option String
  subject : Option String
  deriving DecidableEq, Repr

/-- Remote data visible to one run of `checkUrlExists(url)`:
the subjects answered by `search([{ agent_card_url: url }], ...)`, whether
`globalSearch` finds an atom for the first subject, and the
`as_subject_triples` of its details (`none` models a null details object
or an absent field). The embedding models an available lookup: the
catch-all branch that reports `exists: false` on a thrown error is
outside it. -/
structure RegistryView where
  searchSubjects : List String
  atomFound : Bool
  asSubjectTriples : Option (List TripleLite)

/-- Embeds the `nft_id` triple scan of `checkUrlExists`: the first
triple whose predicate (`data` falling back to `label`) is `nft_id` and
whose object value (`data` falling back to `label`) is truthy and passes
`isNftIdentifier` yields that value. -/
def findStoredNftId (triples : List TripleLite) : Option String :=
  triples.findSome? (fun t =>
    if jsOrStr t.predData t.predLabel = some "nft_id" then
      match jsOrStr t.objData t.objLabel with
      | some s => if s ≠ "" ∧ isNftIdentifier s then some s else none
      | none => none
    else none)

/-- Embeds `checkUrlExists` from src/services/nft.ts over a
`RegistryView`: no matching subject means not found; otherwise the
entry exists, and the NFT id is the first valid stored `nft_id` triple
value when the atom details are reachable. -/
def checkUrlExists (v : RegistryView) : CheckUrlResult :=
  if v.searchSubjects.isEmpty then { found := false, nftId := none, subject := none }
  else
    let subject := v.searchSubjects.headD ""
    if !v.atomFound then { found := true, nftId := none, subject := some subject }
    else
      match v.asSubjectTriples with
      | none => { found := true, nftId := none, subject := some subject }
      | some triples =>
        match findStoredNftId triples with
        | some nftId => { found := true, nftId := some nftId, subject := some subject }
        | none => { found := true, nftId := none, subject := some subject }

/-- Embeds the identity resolution step of `POST /v1/mother/agent`
(src/routes/mother.ts lines 113-126): when
`urlCheck.exists && urlCheck.nftId` (a truthy id), the stored id is
reused; otherwise `mintAgentIdentity` runs, whose resulting id is the
`mintedId` argument. The returned flag records whether minting was
invoked. -/
def resolveNftId (v : RegistryView) (mintedId : String) : String × Bool :=
  let urlCheck := checkUrlExists v
  match urlCheck.nftId with
  | some nftId => if urlCheck.found ∧ nftId ≠ "" then (nftId, false) else (mintedId, true)
  | none => (mintedId, true)

/-- Model of one receipt log: its `topics` array. -/
structure EthLog where
  topics : List String
  deriving DecidableEq, Repr

/-- The ERC-721 `Transfer(address,address,uint256)` event signature hash
used by `extractTokenIdFromReceipt`. -/
def transferEventSignature : String :=
  "0xddf252ad1be2c89b69c2b068fc378daa952ba7f163c4a11628f55a4df523b3ef"

/-- The value of `ethers.ZeroAddress`. -/
def ethersZeroAddress : String := "0x0000000000000000000000000000000000000000"

/-- Model of `ethers.getAddress("0x" + topic.slice(-40))`: the last 40
characters must be 40 hex digits, and the address is returned in a
case-normal form (lower case here; real `getAddress` checksums the
letters, which never changes the all-digit zero address, the only value
the source compares against). A failing parse models the thrown error. -/
def parseTopicAddress (topic : String) : Option String :=
  let s := takeRightStr topic 40
  if s.length = 40 ∧ s.toList.all isHexChar then some ("0x" ++ toLowerStr s) else none

/-- Numeric value of a hex digit. -/
def hexCharVal (c : Char) : Nat :=
  if c.isDigit then c.toNat - 48
  else if 'a' ≤ c ∧ c ≤ 'f' then c.toNat - 87
  else if 'A' ≤ c ∧ c ≤ 'F' then c.toNat - 55
  else 0

/-- Parse a nonempty all-hex string. -/
def parseHexNat (s : String) : Option Nat :=
  if s ≠ "" ∧ s.toList.all isHexChar then
    some (s.toList.foldl (fun acc c => acc * 16 + hexCharVal c) 0)
  else none

/-- Parse a nonempty all-decimal string. -/
def parseDecNat (s : String) : Option Nat :=
  if s ≠ "" ∧ s.toList.all Char.isDigit then
    some (s.toList.foldl (fun acc c => acc * 10 + (c.toNat - 48)) 0)
  else none

/-- Model of `BigInt(s)` for the string forms occurring in receipt
topics: a `0x`/`0X` hex literal or a decimal literal; anything else
throws, modelled as `none`. -/
def jsBigIntOfString (s : String) : Option Nat :=
  if strHasPrefix s "0x" then parseHexNat (strDrop s 2)
  else if strHasPrefix s "0X" then parseHexNat (strDrop s 2)
  else parseDecNat s

/-- Embeds `extractTokenIdFromReceipt` from src/services/nft.ts. Logs
are scanned in order; a log whose first topic is the Transfer signature
and which has exactly four topics has its `from` address and token id
decoded (a decoding error aborts the whole function with `null`, since
the `try` wraps the loop); when `from` is the zero address the decimal
token id is returned, otherwise the scan continues. -/
def extractTokenIdFromReceipt : List EthLog → Option String
  | [] => none
  | log :: rest =>
    if log.topics.headD "" = transferEventSignature ∧ log.topics.length = 4 then
      match parseTopicAddress (log.topics.getD 1 "") with
      | none => none
      | some fromAddr =>
        match jsBigIntOfString (log.topics.getD 3 "") with
        | none => none
        | some tokenId =>
          if fromAddr = ethersZeroAddress then some (toString tokenId)
          else extractTokenIdFromReceipt rest
    else extractTokenIdFromReceipt rest

/-- A well-formed mint log: Transfer signature, four topics, `from`
decoding to the zero address and a decodable token id. -/
def isMintLog (l : EthLog) : Bool :=
  (l.topics.headD "" == transferEventSignature) && (l.topics.length == 4) &&
  (parseTopicAddress (l.topics.getD 1 "") == some ethersZeroAddress) &&
  (jsBigIntOfString (l.topics.getD 3 "")).isSome

/-- Decimal token id carried by a log, when decodable. -/
def mintTokenIdOf (l : EthLog) : Option String :=
  (jsBigIntOfString (l.topics.getD 3 "")).map toString

/-- Embeds the tail of `mintAgentIdentity` (src/services/nft.ts lines
204-211): after the transaction is confirmed, the token id is extracted
from the receipt; a missing token id throws the extraction error to the
caller, otherwise the composite identifier is assembled with
`formatNftIdentifier`. -/
def mintAgentIdentityFinalize (chainId contractAddress : String)
    (receiptLogs : List EthLog) : Except String String :=
  match extractTokenIdFromReceipt receiptLogs with
  | none => Except.error "Failed to extract token ID from transaction receipt"
  | some tokenId => Except.ok (formatNftIdentifier chainId contractAddress tokenId)

/-! Helper lemmas about association-list records. -/

theorem any_key_eq (res : List (String × α)) (k : String) :
    (res.any (fun p => p.1 = k)) = true ↔ k ∈ keysOf res := by
  rw [List.any_eq_true]
  simp [keysOf, List.mem_map, decide_eq_true_eq]

theorem keysOf_append (a b : List (String × α)) :
    keysOf (a ++ b) = keysOf a ++ keysOf b :=
  List.map_append _ a b

theorem assignKV_of_not_mem {res : List (String × α)} {k : String}
    (h : k ∉ keysOf res) (v : α) : assignKV res k v = res ++ [(k, v)] := by
  unfold assignKV
  rw [if_neg]
  intro hc
  exact h ((any_key_eq res k).1 hc)

theorem keysOf_assignKV (res : List (String × α)) (k : String) (v : α) :
    keysOf (assignKV res k v) = if k ∈ keysOf res then keysOf res else keysOf res ++ [k] := by
  by_cases h : k ∈ keysOf res
  · rw [if_pos h]
    unfold assignKV
    rw [if_pos ((any_key_eq res k).2 h)]
    unfold keysOf
    rw [List.map_map]
    refine List.map_congr_left ?_
    intro p _
    by_cases hp : p.1 = k
    · simp [hp]
    · simp [hp]
  · rw [if_neg h, assignKV_of_not_mem h, keysOf_append]
    rfl

theorem mem_keysOf_assignKV (res : List (String × α)) (k : String) (v : α) :
    k ∈ keysOf (assignKV res k v) := by
  rw [keysOf_assignKV]
  by_cases h : k ∈ keysOf res
  · simpa [h] using h
  · simp [h]

theorem mem_keysOf_assignKV_iff (res : List (String × α)) (k : String) (v : α) (x : String) :
    x ∈ keysOf (assignKV res k v) ↔ x ∈ keysOf res ∨ x = k := by
  rw [keysOf_assignKV]
  by_cases h : k ∈ keysOf res
  · simp only [if_pos h]
    constructor
    · exact Or.inl
    · rintro (hx | rfl)
      · exact hx
      · exact h
  · simp [if_neg h, List.mem_append]

theorem nodupKeys_val_eq {l : List (String × α)} {k : String} {v1 v2 : α}
    (hnd : (keysOf l).Nodup) (h1 : (k, v1) ∈ l) (h2 : (k, v2) ∈ l) : v1 = v2 := by
  induction l with
  | nil => cases h1
  | cons hd tl ih =>
    have hnd' : hd.1 ∉ keysOf tl ∧ (keysOf tl).Nodup := by
      simpa [keysOf] using hnd
    rcases List.mem_cons.1 h1 with h1 | h1 <;> rcases List.mem_cons.1 h2 with h2 | h2
    · exact congrArg Prod.snd (h1.trans h2.symm)
    · have hk : k ∈ keysOf tl := List.mem_map_of_mem Prod.fst h2
      have hk1 : k = hd.1 := congrArg Prod.fst h1
      rw [hk1] at hk
      exact absurd hk hnd'.1
    · have hk : k ∈ keysOf tl := List.mem_map_of_mem Prod.fst h1
      have hk1 : k = hd.1 := congrArg Prod.fst h2
      rw [hk1] at hk
      exact absurd hk hnd'.1
    · exact ih hnd'.2 h1 h2

/-! Flattener lemmas. -/

theorem flattenValue_eq_entry (parentKey : String) (acc : List (String × Json))
    (kv : String × Json) :
    flattenValue kv.2 (joinKey parentKey kv.1) acc = flattenEntry parentKey acc kv := by
  rcases kv with ⟨k, v⟩
  cases v <;> rfl

theorem flattenFields_eq_foldl (fields : List (String × Json)) (parentKey : String)
    (acc : List (String × Json)) :
    flattenFields fields parentKey acc = fields.foldl (flattenEntry parentKey) acc := by
  induction fields generalizing acc with
  | nil => rfl
  | cons kv rest ih =>
    rcases kv with ⟨k, v⟩
    rw [List.foldl_cons]
    calc flattenFields ((k, v) :: rest) parentKey acc
        = flattenFields rest parentKey (flattenValue v (joinKey parentKey k) acc) := rfl
      _ = flattenFields rest parentKey (flattenEntry parentKey acc (k, v)) := by
          rw [flattenValue_eq_entry parentKey acc (k, v)]
      _ = rest.foldl (flattenEntry parentKey) (flattenEntry parentKey acc (k, v)) := ih _

/-- Claim C3: for every plain-object input, `flattenToOneLevel` processes
the entries in order, computing each output key by joining the parent
prefix and the child key with a colon (`flattenEntry` applies `joinKey`,
which is `prefix ? prefix + ":" + key : key`) and recursing into every
non-array object value with the joined prefix, merging everything into
one single-level record; in particular flattening
`\x7ba: \x7bb: \x7bc: 1\x7d\x7d\x7d` yields the single binding
`"a:b:c" = 1`. -/
theorem claim_C3_flatten_path :
    (∀ (fields : List (String × Json)) (parentKey : String) (acc : List (String × Json)),
      flattenToOneLevel (Json.obj fields) parentKey acc
        = fields.foldl (flattenEntry parentKey) acc)
    ∧ flattenToOneLevel (Json.obj [("a", Json.obj [("b", Json.obj [("c", Json.num 1)])])]) "" []
        = [("a:b:c", Json.num 1)] :=
  ⟨fun fields p acc => flattenFields_eq_foldl fields p acc, rfl⟩

/-- Claim C4: `flattenToOneLevel` keeps every array value as an array
under its joined key, mapping each element through
`stringifyObjectElement`, which serializes object elements to JSON
strings and leaves primitive elements untouched; in particular
flattening `\x7ba: [\x7bx:1\x7d, "y"]\x7d` yields
`a = ["\x7b\"x\":1\x7d", "y"]`. -/
theorem claim_C4_array_stringification :
    (∀ (parentKey key : String) (xs : List Json) (rest acc : List (String × Json)),
      flattenToOneLevel (Json.obj ((key, Json.arr xs) :: rest)) parentKey acc
        = flattenToOneLevel (Json.obj rest) parentKey
            (assignKV acc (joinKey parentKey key) (Json.arr (xs.map stringifyObjectElement))))
    ∧ (∀ v, isPrimitiveElement v = true → stringifyObjectElement v = v)
    ∧ flattenToOneLevel
        (Json.obj [("a", Json.arr [Json.obj [("x", Json.num 1)], Json.str "y"])]) "" []
        = [("a", Json.arr [Json.str "\x7b\"x\":1\x7d", Json.str "y"])] := by
  refine ⟨fun _ _ _ _ _ => rfl, ?_, rfl⟩
  intro v h
  cases v <;> first
    | rfl
    | exact absurd h (by simp [isPrimitiveElement])

/-- Witness for claim C4 at a primitive string element. -/
theorem claim_C4_witness :
    isPrimitiveElement (Json.str "y") = true ∧ stringifyObjectElement (Json.str "y") = Json.str "y" :=
  ⟨rfl, claim_C4_array_stringification.2.1 (Json.str "y") rfl⟩

/-! Normalizer lemmas. -/

theorem keys_normalizeStep (out : List (String × NormVal)) (kv : String × Json) (x : String)
    (h : x ∈ keysOf (normalizeStep out kv)) : x ∈ keysOf out ∨ x = kv.1 := by
  rcases kv with ⟨k1, v1⟩
  cases v1 with
  | null => exact Or.inl (by simpa [normalizeStep] using h)
  | arr xs => exact (mem_keysOf_assignKV_iff out k1 _ x).1 (by simpa [normalizeStep] using h)
  | str s => exact (mem_keysOf_assignKV_iff out k1 _ x).1 (by simpa [normalizeStep] using h)
  | num n => exact (mem_keysOf_assignKV_iff out k1 _ x).1 (by simpa [normalizeStep] using h)
  | bool b => exact (mem_keysOf_assignKV_iff out k1 _ x).1 (by simpa [normalizeStep] using h)
  | obj fs => exact (mem_keysOf_assignKV_iff out k1 _ x).1 (by simpa [normalizeStep] using h)

theorem normalize_aux (k : String) :
    ∀ (entries : List (String × Json)) (out : List (String × NormVal)),
      (∀ v, (k, v) ∈ entries → v = Json.null) → k ∉ keysOf out →
      k ∉ keysOf (entries.foldl normalizeStep out) := by
  intro entries
  induction entries with
  | nil => intro out _ hout; exact hout
  | cons hd tl ih =>
    intro out hall hout
    rw [List.foldl_cons]
    refine ih _ (fun v hv => hall v (List.mem_cons_of_mem hd hv)) ?_
    rcases hd with ⟨k1, v1⟩
    by_cases hk : k1 = k
    · have hv1 : v1 = Json.null := hall v1 (by rw [hk]; exact List.mem_cons_self _ _)
      subst hv1
      simpa [normalizeStep] using hout
    · intro hmem
      rcases keys_normalizeStep out (k1, v1) k hmem with hin | heq
      · exact hout hin
      · exact hk heq.symm

/-- Claim C5: `normalizeFlatValues` omits every key whose value is null
(the key is absent from the output, not stored as an empty string); in
particular normalizing `\x7ba: null, b: "x"\x7d` yields `\x7bb: "x"\x7d`
with key `a` absent. -/
theorem claim_C5_normalizer_null_dropping :
    (∀ (flat : List (String × Json)) (k : String),
      (keysOf flat).Nodup → (k, Json.null) ∈ flat →
      k ∉ keysOf (normalizeFlatValues flat))
    ∧ normalizeFlatValues [("a", Json.null), ("b", Json.str "x")] = [("b", NormVal.str "x")] := by
  refine ⟨?_, rfl⟩
  intro flat k hnd hmem
  exact normalize_aux k flat []
    (fun v hv => nodupKeys_val_eq hnd hv hmem) (by simp [keysOf])

/-- Witness for claim C5 at the concrete record of the specification. -/
theorem claim_C5_witness :
    (keysOf [("a", Json.null), ("b", Json.str "x")]).Nodup
    ∧ ("a", Json.null) ∈ [("a", Json.null), ("b", Json.str "x")]
    ∧ "a" ∉ keysOf (normalizeFlatValues [("a", Json.null), ("b", Json.str "x")]) := by
  have h1 : (keysOf [("a", Json.null), ("b", Json.str "x")]).Nodup := by decide
  have h2 : ("a", Json.null) ∈ [("a", Json.null), ("b", Json.str "x")] :=
    List.mem_cons_self _ _
  exact ⟨h1, h2, claim_C5_normalizer_null_dropping.1 _ "a" h1 h2⟩

/-! One-level flattening lemmas. -/

theorem map_stringify_of_prim {xs : List Json} (h : xs.all isPrimitiveElement = true) :
    xs.map stringifyObjectElement = xs := by
  induction xs with
  | nil => rfl
  | cons x rest ih =>
    rw [List.all_cons, Bool.and_eq_true] at h
    have hx : stringifyObjectElement x = x := by
      cases x <;> first
        | rfl
        | exact absurd h.1 (by simp [isPrimitiveElement])
    rw [List.map_cons, hx, ih h.2]

theorem flatten_one_level_aux :
    ∀ (fields acc : List (String × Json)),
      (keysOf fields).Nodup →
      (∀ x ∈ keysOf fields, x ∉ keysOf acc) →
      (∀ kv ∈ fields, isOneLevelValue kv.2 = true) →
      flattenFields fields "" acc = acc ++ fields := by
  intro fields
  induction fields with
  | nil => intro acc _ _ _; simp [flattenFields]
  | cons kv rest ih =>
    rcases kv with ⟨k, v⟩
    intro acc hnd hdisj hvals
    have hkcons : keysOf ((k, v) :: rest) = k :: keysOf rest := rfl
    rw [hkcons, List.nodup_cons] at hnd
    have hknotacc : k ∉ keysOf acc := hdisj k (by simp [keysOf])
    have hv : isOneLevelValue v = true := hvals (k, v) (List.mem_cons_self _ _)
    have hstep : flattenValue v (joinKey "" k) acc = acc ++ [(k, v)] := by
      have hjoin : joinKey "" k = k := by simp [joinKey]
      rw [hjoin]
      cases v with
      | obj fs => exact absurd hv (by simp [isOneLevelValue])
      | arr xs =>
        show assignKV acc k (Json.arr (xs.map stringifyObjectElement)) = acc ++ [(k, Json.arr xs)]
        rw [map_stringify_of_prim (by simpa [isOneLevelValue] using hv)]
        exact assignKV_of_not_mem hknotacc _
      | null => exact assignKV_of_not_mem hknotacc _
      | bool b => exact assignKV_of_not_mem hknotacc _
      | num n => exact assignKV_of_not_mem hknotacc _
      | str s => exact assignKV_of_not_mem hknotacc _
    have hdisj' : ∀ x ∈ keysOf rest, x ∉ keysOf (acc ++ [(k, v)]) := by
      intro x hx
      rw [keysOf_append, List.mem_append]
      rintro (hxa | hxk)
      · exact hdisj x (by rw [hkcons]; exact List.mem_cons_of_mem _ hx) hxa
      · have hk : x = k := by simpa [keysOf] using hxk
        exact hnd.1 (hk ▸ hx)
    calc flattenFields ((k, v) :: rest) "" acc
        = flattenFields rest "" (flattenValue v (joinKey "" k) acc) := rfl
      _ = flattenFields rest "" (acc ++ [(k, v)]) := by rw [hstep]
      _ = (acc ++ [(k, v)]) ++ rest :=
          ih _ hnd.2 hdisj' (fun kv hkv => hvals kv (List.mem_cons_of_mem _ hkv))
      _ = acc ++ ((k, v) :: rest) := by simp

/-- Counterexample for claim C9: the object `\x7ba: [\x7bx:1\x7d]\x7d`
is one-level in the sense of the claim (none of its values is itself a
plain object), yet `flattenToOneLevel` does not return it unchanged: the
object inside the array value is serialized to the string
`"\x7b\"x\":1\x7d"`. -/
theorem claim_C9_counterexample :
    flattenToOneLevel (Json.obj [("a", Json.arr [Json.obj [("x", Json.num 1)]])]) "" []
        = [("a", Json.arr [Json.str "\x7b\"x\":1\x7d"])]
    ∧ flattenToOneLevel (Json.obj [("a", Json.arr [Json.obj [("x", Json.num 1)]])]) "" []
        ≠ [("a", Json.arr [Json.obj [("x", Json.num 1)]])]
    ∧ (∀ kv ∈ [("a", Json.arr [Json.obj [("x", Json.num 1)]])], isPlainObject kv.2 = false) := by
  refine ⟨rfl, ?_, by decide⟩
  intro h
  simp only [show flattenToOneLevel (Json.obj [("a", Json.arr [Json.obj [("x", Json.num 1)]])]) "" []
      = [("a", Json.arr [Json.str "\x7b\"x\":1\x7d"])] from rfl] at h
  simp at h

/-- Claim C9 as amended: flattening a one-level object returns it
unchanged, where one-level additionally requires array values to hold
only primitive elements (otherwise such elements are stringified, as the
counterexample shows); key uniqueness holds for every real JS object. -/
theorem claim_C9_amended :
    ∀ (fields : List (String × Json)),
      (keysOf fields).Nodup →
      (∀ kv ∈ fields, isOneLevelValue kv.2 = true) →
      flattenToOneLevel (Json.obj fields) "" [] = fields := by
  intro fields hnd hvals
  have h := flatten_one_level_aux fields [] hnd (fun x _ => by simp [keysOf]) hvals
  simpa using h

/-- Witness for the amended claim C9 at a concrete one-level object. -/
theorem claim_C9_witness :
    (keysOf [("a", Json.str "1"), ("b", Json.arr [Json.num 2])]).Nodup
    ∧ (∀ kv ∈ [("a", Json.str "1"), ("b", Json.arr [Json.num 2])], isOneLevelValue kv.2 = true)
    ∧ flattenToOneLevel (Json.obj [("a", Json.str "1"), ("b", Json.arr [Json.num 2])]) "" []
        = [("a", Json.str "1"), ("b", Json.arr [Json.num 2])] :=
  ⟨by decide, by decide, claim_C9_amended _ (by decide) (by decide)⟩

/-- Counterexample for claim C1: the claim states that every error from
the sync call that is not an already-exists conflict yields HTTP 500;
but an error whose `name` is `AbortError` is answered with HTTP 504 by
the outer catch of the handler. -/
theorem claim_C1_counterexample :
    isAlreadyExistsError ⟨"network down", some "AbortError", none⟩ = false
    ∧ (handleAgentSyncError ⟨"network down", some "AbortError", none⟩).status = 504
    ∧ (handleAgentSyncError ⟨"network down", some "AbortError", none⟩).status ≠ 500
    ∧ (handleAgentSyncError ⟨"network down", some "AbortError", none⟩).success = false :=
  ⟨by decide, by decide, by decide, by decide⟩

/-- Claim C1 as amended: for every error thrown by the remote sync call,
the handler reports success with the idempotent no-op message and HTTP
200 exactly when `isAlreadyExistsError` holds (the message or nested
cause message contains, case-insensitively, the substring `atomexists`);
every other error is a hard failure with `success: false`, answered with
HTTP 504 when the error is named `AbortError` and HTTP 500 otherwise. -/
theorem claim_C1_amended :
    ∀ (e : JsError),
      (((handleAgentSyncError e).status = 200 ∧ (handleAgentSyncError e).success = true
          ∧ (handleAgentSyncError e).message = alreadyExistsMessage)
        ↔ isAlreadyExistsError e = true)
      ∧ (isAlreadyExistsError e = false →
          (handleAgentSyncError e).success = false
          ∧ (handleAgentSyncError e).status
              = (if e.name = some "AbortError" then 504 else 500)) := by
  intro e
  by_cases h : isAlreadyExistsError e = true
  · refine ⟨⟨fun _ => h, fun _ => ?_⟩, fun hf => by rw [hf] at h; cases h⟩
    simp [handleAgentSyncError, h, alreadyExistsMessage]
  · have hb : isAlreadyExistsError e = false := by
      revert h
      cases isAlreadyExistsError e <;> simp
    by_cases hn : e.name = some "AbortError"
    · refine ⟨⟨fun hc => ?_, fun hc => absurd hc h⟩, fun _ => ?_⟩
      · have h504 : (handleAgentSyncError e).status = 504 := by
          simp [handleAgentSyncError, hb, hn]
        rw [h504] at hc
        exact absurd hc.1 (by decide)
      · constructor
        · simp [handleAgentSyncError, hb, hn]
        · simp [handleAgentSyncError, hb, hn]
    · refine ⟨⟨fun hc => ?_, fun hc => absurd hc h⟩, fun _ => ?_⟩
      · have h500 : (handleAgentSyncError e).status = 500 := by
          simp [handleAgentSyncError, hb, hn]
        rw [h500] at hc
        exact absurd hc.1 (by decide)
      · constructor
        · simp [handleAgentSyncError, hb, hn]
        · simp [handleAgentSyncError, hb, hn]

/-- Witness for the amended claim C1: a vendor conflict message is
swallowed as an idempotent no-op, and a plain failure yields HTTP 500
with `success: false`. -/
theorem claim_C1_witness :
    ((handleAgentSyncError ⟨"execution reverted: MultiVault_AtomExists", none, none⟩).status = 200
      ∧ (handleAgentSyncError ⟨"execution reverted: MultiVault_AtomExists", none, none⟩).success = true
      ∧ (handleAgentSyncError ⟨"execution reverted: MultiVault_AtomExists", none, none⟩).message
          = alreadyExistsMessage)
    ∧ ((handleAgentSyncError ⟨"rpc failure", none, none⟩).success = false
      ∧ (handleAgentSyncError ⟨"rpc failure", none, none⟩).status = 500) := by
  constructor
  · exact (claim_C1_amended ⟨"execution reverted: MultiVault_AtomExists", none, none⟩).1.mpr
      (by decide)
  · have h := (claim_C1_amended ⟨"rpc failure", none, none⟩).2 (by decide)
    exact ⟨h.1, by simpa using h.2⟩

/-! Identifier shape lemmas. -/

theorem splitOnCharAux_length (sep : Char) :
    ∀ l : List Char, (splitOnCharAux sep l).length = l.count sep + 1 := by
  intro l
  induction l with
  | nil => rfl
  | cons c rest ih =>
    by_cases hc : c = sep
    · subst hc
      simp [splitOnCharAux, ih, List.count_cons]
    · rcases hr : splitOnCharAux sep rest with _ | ⟨h, t⟩
      · rw [hr] at ih
        simp only [List.length_nil] at ih
        exact absurd ih (by omega)
      · rw [hr] at ih
        simp only [splitOnCharAux, hr, if_neg hc]
        simp only [List.length_cons] at ih ⊢
        rw [List.count_cons, if_neg (by exact fun hcc => hc (by simpa using hcc))]
        omega

theorem jsSplit_length (s : String) (sep : Char) :
    (jsSplit s sep).length = s.toList.count sep + 1 := by
  unfold jsSplit
  rw [List.length_map]
  exact splitOnCharAux_length sep s.toList

/-- Claim C10: `isNftIdentifier` accepts exactly the strings that split
on `:` into three parts, equivalently the strings containing exactly two
colons; it validates neither the contract address nor the token id
(which the separate `validateNftIdentifier` does reject), and the
`GET /v1/mother/agents` listing filter keeps exactly the subjects
accepted by `isNftIdentifier`. -/
theorem claim_C10_identifier_shape :
    (∀ s : String, isNftIdentifier s = true ↔ (jsSplit s ':').length = 3)
    ∧ (∀ s : String, isNftIdentifier s = true ↔ s.toList.count ':' = 2)
    ∧ isNftIdentifier "foo:bar:baz" = true
    ∧ validateNftIdentifier "foo:bar:baz" = false
    ∧ (∀ (subjects : List String) (x : String),
        x ∈ filterRegistryAgents subjects ↔ x ∈ subjects ∧ isNftIdentifier x = true) := by
  have hshape : ∀ s : String, isNftIdentifier s = true ↔ (jsSplit s ':').length = 3 := by
    intro s
    unfold isNftIdentifier parseNftIdentifier
    by_cases h : (jsSplit s ':').length = 3
    · simp [h]
    · simp [h]
  refine ⟨hshape, ?_, by decide, by decide, ?_⟩
  · intro s
    rw [hshape s, jsSplit_length]
    omega
  · intro subjects x
    unfold filterRegistryAgents
    exact List.mem_filter

/-! Identity-resolver lemmas. -/

theorem findStoredNftId_some {ts : List TripleLite} {s : String}
    (h : findStoredNftId ts = some s) : s ≠ "" ∧ isNftIdentifier s = true := by
  induction ts with
  | nil => cases h
  | cons t rest ih =>
    by_cases hp : jsOrStr t.predData t.predLabel = some "nft_id"
    · rcases ho : jsOrStr t.objData t.objLabel with _ | s0
      · have hred : findStoredNftId (t :: rest) = findStoredNftId rest := by
          simp [findStoredNftId, List.findSome?_cons, hp, ho]
        rw [hred] at h
        exact ih h
      · by_cases hg : s0 ≠ "" ∧ isNftIdentifier s0 = true
        · have hred : findStoredNftId (t :: rest) = some s0 := by
            simp [findStoredNftId, List.findSome?_cons, hp, ho, hg]
          rw [hred] at h
          injection h with h'
          exact h' ▸ hg
        · have hred : findStoredNftId (t :: rest) = findStoredNftId rest := by
            simp [findStoredNftId, List.findSome?_cons, hp, ho, hg]
          rw [hred] at h
          exact ih h
    · have hred : findStoredNftId (t :: rest) = findStoredNftId rest := by
        simp [findStoredNftId, List.findSome?_cons, hp]
      rw [hred] at h
      exact ih h

/-- Claim C2: when the `checkUrlExists` lookup of the natural-key URL
finds an existing entry (a matching subject whose atom details are
reachable) that stores a truthy `nft_id` passing `isNftIdentifier`, the
resolver reuses that identifier and does not invoke minting; and
consequently a second submission whose consistent lookup sees the
identifier resolved by the first returns the same identifier, again
without minting. -/
theorem claim_C2_identity_reuse :
    ∀ (v : RegistryView) (ts : List TripleLite) (mintedId s : String),
      v.searchSubjects ≠ [] → v.atomFound = true → v.asSubjectTriples = some ts →
      findStoredNftId ts = some s →
      (checkUrlExists v).found = true
      ∧ (checkUrlExists v).nftId = some s
      ∧ resolveNftId v mintedId = (s, false)
      ∧ (∀ (v2 : RegistryView) (ts2 : List TripleLite) (mintedId2 : String),
          v2.searchSubjects ≠ [] → v2.atomFound = true → v2.asSubjectTriples = some ts2 →
          findStoredNftId ts2 = some (resolveNftId v mintedId).1 →
          resolveNftId v2 mintedId2 = ((resolveNftId v mintedId).1, false)) := by
  have main : ∀ (v : RegistryView) (ts : List TripleLite) (mintedId s : String),
      v.searchSubjects ≠ [] → v.atomFound = true → v.asSubjectTriples = some ts →
      findStoredNftId ts = some s →
      (checkUrlExists v).found = true ∧ (checkUrlExists v).nftId = some s
        ∧ resolveNftId v mintedId = (s, false) := by
    intro v ts mintedId s hne hatom htr hfind
    have h1 : v.searchSubjects.isEmpty = false := by
      cases hs : v.searchSubjects
      · exact absurd hs hne
      · rfl
    have hcheck : checkUrlExists v
        = { found := true, nftId := some s, subject := some (v.searchSubjects.headD "") } := by
      unfold checkUrlExists
      simp [h1, hatom, htr, hfind]
    have hs' := findStoredNftId_some hfind
    have hresolve : resolveNftId v mintedId = (s, false) := by
      simp [resolveNftId, hcheck, hs'.1]
    exact ⟨by rw [hcheck], by rw [hcheck], hresolve⟩
  intro v ts mintedId s hne hatom htr hfind
  obtain ⟨h1, h2, h3⟩ := main v ts mintedId s hne hatom htr hfind
  refine ⟨h1, h2, h3, ?_⟩
  intro v2 ts2 mintedId2 hne2 hatom2 htr2 hfind2
  exact (main v2 ts2 mintedId2 _ hne2 hatom2 htr2 hfind2).2.2

/-- Witness for claim C2 at a concrete registry view storing a valid
composite identifier. -/
theorem claim_C2_witness :
    (checkUrlExists ⟨["did:x"], true,
        some [⟨some "nft_id", none, none, some "84532:0xabc:7"⟩]⟩).found = true
    ∧ (checkUrlExists ⟨["did:x"], true,
        some [⟨some "nft_id", none, none, some "84532:0xabc:7"⟩]⟩).nftId = some "84532:0xabc:7"
    ∧ resolveNftId ⟨["did:x"], true,
        some [⟨some "nft_id", none, none, some "84532:0xabc:7"⟩]⟩ "fresh-mint"
        = ("84532:0xabc:7", false) := by
  have h := claim_C2_identity_reuse
    ⟨["did:x"], true, some [⟨some "nft_id", none, none, some "84532:0xabc:7"⟩]⟩
    [⟨some "nft_id", none, none, some "84532:0xabc:7"⟩] "fresh-mint" "84532:0xabc:7"
    (by decide) rfl rfl (by decide)
  exact ⟨h.1, h.2.1, h.2.2.1⟩

/-! Reverse-mapper lemmas. -/

theorem mem_keys_arrayEnsured {d : List (String × AgentVal)} {p x : String} {b : Bool}
    (h : x ∈ keysOf (if b then d else assignKV d p (AgentVal.strList []))) :
    x ∈ keysOf d ∨ x = p := by
  cases b
  · exact (mem_keysOf_assignKV_iff d p _ x).1 (by simpa using h)
  · exact Or.inl (by simpa using h)

set_option maxHeartbeats 1600000 in
theorem mapStep_agentData_keys (ext : TripleLite → List String) (st : MapState)
    (t : TripleLite) (x : String)
    (h : x ∈ keysOf (mapAtomTripleStep ext st t).agentData) :
    x ∈ keysOf st.agentData ∨ x ∈ fieldsToInclude := by
  have assign1 : ∀ (d : List (String × AgentVal)) (k : String) (v : AgentVal) (y : String),
      y ∈ keysOf (assignKV d k v) → y ∈ keysOf d ∨ y = k := fun d k v y hy =>
    (mem_keysOf_assignKV_iff d k v y).1 hy
  unfold mapAtomTripleStep at h
  repeat' (first | split at h | dsimp only at h)
  all_goals first
    | exact Or.inl h
    | (rcases assign1 _ _ _ _ h with h | rfl <;>
        first
          | exact Or.inl h
          | (rcases assign1 _ _ _ _ h with h | rfl <;>
              first
                | exact Or.inl h
                | (simp_all [fieldsToInclude, arrayFields, booleanFields] <;> tauto))
          | (simp_all [fieldsToInclude, arrayFields, booleanFields] <;> tauto))

theorem mapFold_agentData_keys (ext : TripleLite → List String) :
    ∀ (ts : List TripleLite) (st : MapState),
      (∀ x ∈ keysOf st.agentData, x ∈ fieldsToInclude) →
      ∀ x ∈ keysOf ((ts.foldl (mapAtomTripleStep ext) st).agentData), x ∈ fieldsToInclude := by
  intro ts
  induction ts with
  | nil => intro st hst; exact hst
  | cons t rest ih =>
    intro st hst
    rw [List.foldl_cons]
    exact ih _ (fun x hx => (mapStep_agentData_keys ext st t x hx).elim (hst x) id)

/-- Counterexample for claim C6: when the atom details are null or have
no `as_subject_triples` field, `mapAtomDetailsToAgentData` returns the
empty object through its early return, so the output does not always
contain the `tags` and `skillTags` keys. -/
theorem claim_C6_counterexample :
    mapAtomDetailsToAgentData (fun _ => []) none = []
    ∧ "tags" ∉ keysOf (mapAtomDetailsToAgentData (fun _ => []) none)
    ∧ "skillTags" ∉ keysOf (mapAtomDetailsToAgentData (fun _ => []) none) :=
  ⟨rfl, by decide, by decide⟩

/-- Claim C6 as amended: for every input that does carry an
`as_subject_triples` list, the mapper omits every predicate that is
neither on the whitelist nor the designated tag or skill-tag predicate
(every output key is whitelisted or one of `tags`/`skillTags`), and the
output always contains `tags` and `skillTags`, defaulting to empty
arrays; when `as_subject_triples` is null or absent the output is the
empty object. All of this holds for an arbitrary skills sub-extractor. -/
theorem claim_C6_amended :
    ∀ (ext : TripleLite → List String) (ts : List TripleLite),
      (∀ x ∈ keysOf (mapAtomDetailsToAgentData ext (some ts)),
        x ∈ fieldsToInclude ∨ x = "tags" ∨ x = "skillTags")
      ∧ "tags" ∈ keysOf (mapAtomDetailsToAgentData ext (some ts))
      ∧ "skillTags" ∈ keysOf (mapAtomDetailsToAgentData ext (some ts))
      ∧ mapAtomDetailsToAgentData ext (some [])
          = [("tags", AgentVal.strList []), ("skillTags", AgentVal.strList [])]
      ∧ mapAtomDetailsToAgentData ext none = [] := by
  intro ext ts
  have hfold : ∀ x ∈ keysOf ((ts.foldl (mapAtomTripleStep ext) ⟨[], [], []⟩).agentData),
      x ∈ fieldsToInclude :=
    mapFold_agentData_keys ext ts ⟨[], [], []⟩ (by intro x hx; simp [keysOf] at hx)
  refine ⟨?_, ?_, ?_, rfl, rfl⟩
  · intro x hx
    have hx' : x ∈ keysOf
        (assignKV (assignKV ((ts.foldl (mapAtomTripleStep ext) ⟨[], [], []⟩).agentData)
            "tags" (AgentVal.strList (ts.foldl (mapAtomTripleStep ext) ⟨[], [], []⟩).tags))
          "skillTags" (AgentVal.strList (ts.foldl (mapAtomTripleStep ext) ⟨[], [], []⟩).skillTags)) := hx
    rcases (mem_keysOf_assignKV_iff _ "skillTags" _ x).1 hx' with hx2 | rfl
    · rcases (mem_keysOf_assignKV_iff _ "tags" _ x).1 hx2 with hx3 | rfl
      · exact Or.inl (hfold x hx3)
      · exact Or.inr (Or.inl rfl)
    · exact Or.inr (Or.inr rfl)
  · show "tags" ∈ keysOf
        (assignKV (assignKV ((ts.foldl (mapAtomTripleStep ext) ⟨[], [], []⟩).agentData)
            "tags" (AgentVal.strList (ts.foldl (mapAtomTripleStep ext) ⟨[], [], []⟩).tags))
          "skillTags" (AgentVal.strList (ts.foldl (mapAtomTripleStep ext) ⟨[], [], []⟩).skillTags))
    exact (mem_keysOf_assignKV_iff _ "skillTags" _ "tags").2
      (Or.inl (mem_keysOf_assignKV _ "tags" _))
  · show "skillTags" ∈ keysOf
        (assignKV (assignKV ((ts.foldl (mapAtomTripleStep ext) ⟨[], [], []⟩).agentData)
            "tags" (AgentVal.strList (ts.foldl (mapAtomTripleStep ext) ⟨[], [], []⟩).tags))
          "skillTags" (AgentVal.strList (ts.foldl (mapAtomTripleStep ext) ⟨[], [], []⟩).skillTags))
    exact mem_keysOf_assignKV _ "skillTags" _

/-- Witness for the amended claim C6 at a concrete triple list with one
whitelisted and one unknown predicate. -/
theorem claim_C6_witness :
    (∀ x ∈ keysOf (mapAtomDetailsToAgentData (fun _ => [])
        (some [⟨some "name", none, some "Agent X", some "d"⟩,
               ⟨some "hacker_field", none, none, some "evil"⟩])),
      x ∈ fieldsToInclude ∨ x = "tags" ∨ x = "skillTags")
    ∧ "tags" ∈ keysOf (mapAtomDetailsToAgentData (fun _ => [])
        (some [⟨some "name", none, some "Agent X", some "d"⟩,
               ⟨some "hacker_field", none, none, some "evil"⟩]))
    ∧ "hacker_field" ∉ keysOf (mapAtomDetailsToAgentData (fun _ => [])
        (some [⟨some "name", none, some "Agent X", some "d"⟩,
               ⟨some "hacker_field", none, none, some "evil"⟩])) := by
  have h := claim_C6_amended (fun _ => [])
    [⟨some "name", none, some "Agent X", some "d"⟩,
     ⟨some "hacker_field", none, none, some "evil"⟩]
  exact ⟨h.1, h.2.1, by decide⟩

/-- Claim C7 (code bug): a triple carrying the boolean-coded predicate
`capabilities:stateTransitionHistory` with raw data `"true"` is dropped
entirely by `mapAtomDetailsToAgentData`, because the whitelist check
(`fieldsToInclude`, which does not contain any `booleanFields` entry)
runs before the boolean branch; the documented boolean decoding can
never fire, and the key is absent from the output instead of mapping to
`true`. -/
theorem claim_C7_boolean_branch_unreachable :
    mapAtomDetailsToAgentData (fun _ => [])
        (some [⟨some "capabilities:stateTransitionHistory", none, none, some "true"⟩])
      = [("tags", AgentVal.strList []), ("skillTags", AgentVal.strList [])]
    ∧ "capabilities:stateTransitionHistory"
        ∉ keysOf (mapAtomDetailsToAgentData (fun _ => [])
            (some [⟨some "capabilities:stateTransitionHistory", none, none, some "true"⟩]))
    ∧ "capabilities:stateTransitionHistory" ∈ booleanFields
    ∧ "capabilities:stateTransitionHistory" ∉ fieldsToInclude
    ∧ booleanFields.all (fun p => !fieldsToInclude.contains p) = true :=
  ⟨by decide, by decide, by decide, by decide, by decide⟩

/-! Receipt-extraction lemmas. -/

theorem extract_sound :
    ∀ (logs : List EthLog) (tid : String),
      extractTokenIdFromReceipt logs = some tid →
      ∃ l, l ∈ logs ∧ isMintLog l = true ∧ mintTokenIdOf l = some tid := by
  intro logs
  induction logs with
  | nil => intro tid h; cases h
  | cons log rest ih =>
    intro tid h
    by_cases hshape : log.topics.headD "" = transferEventSignature ∧ log.topics.length = 4
    · rw [show extractTokenIdFromReceipt (log :: rest)
          = if log.topics.headD "" = transferEventSignature ∧ log.topics.length = 4 then
              match parseTopicAddress (log.topics.getD 1 "") with
              | none => none
              | some fromAddr =>
                match jsBigIntOfString (log.topics.getD 3 "") with
                | none => none
                | some tokenId =>
                  if fromAddr = ethersZeroAddress then some (toString tokenId)
                  else extractTokenIdFromReceipt rest
            else extractTokenIdFromReceipt rest from rfl, if_pos hshape] at h
      rcases ha : parseTopicAddress (log.topics.getD 1 "") with _ | fromAddr
      · rw [ha] at h
        cases h
      · rw [ha] at h
        dsimp only at h
        rcases hb : jsBigIntOfString (log.topics.getD 3 "") with _ | tokenId
        · rw [hb] at h
          cases h
        · rw [hb] at h
          dsimp only at h
          by_cases hz : fromAddr = ethersZeroAddress
          · rw [if_pos hz] at h
            injection h with h'
            refine ⟨log, List.mem_cons_self _ _, ?_, ?_⟩
            · unfold isMintLog
              simp only [Bool.and_eq_true, beq_iff_eq]
              refine ⟨⟨⟨hshape.1, hshape.2⟩, ?_⟩, ?_⟩
              · rw [ha, hz]
              · rw [hb]
                rfl
            · rw [← h']
              unfold mintTokenIdOf
              rw [hb]
              rfl
          · rw [if_neg hz] at h
            obtain ⟨l, hl, hml, htok⟩ := ih tid h
            exact ⟨l, List.mem_cons_of_mem _ hl, hml, htok⟩
    · rw [show extractTokenIdFromReceipt (log :: rest)
          = if log.topics.headD "" = transferEventSignature ∧ log.topics.length = 4 then
              match parseTopicAddress (log.topics.getD 1 "") with
              | none => none
              | some fromAddr =>
                match jsBigIntOfString (log.topics.getD 3 "") with
                | none => none
                | some tokenId =>
                  if fromAddr = ethersZeroAddress then some (toString tokenId)
                  else extractTokenIdFromReceipt rest
            else extractTokenIdFromReceipt rest from rfl, if_neg hshape] at h
      obtain ⟨l, hl, hml, htok⟩ := ih tid h
      exact ⟨l, List.mem_cons_of_mem _ hl, hml, htok⟩

theorem extract_none :
    ∀ logs : List EthLog, (∀ l ∈ logs, isMintLog l = false) →
      extractTokenIdFromReceipt logs = none := by
  intro logs
  induction logs with
  | nil => intro _; rfl
  | cons log rest ih =>
    intro hall
    rw [show extractTokenIdFromReceipt (log :: rest)
        = if log.topics.headD "" = transferEventSignature ∧ log.topics.length = 4 then
            match parseTopicAddress (log.topics.getD 1 "") with
            | none => none
            | some fromAddr =>
              match jsBigIntOfString (log.topics.getD 3 "") with
              | none => none
              | some tokenId =>
                if fromAddr = ethersZeroAddress then some (toString tokenId)
                else extractTokenIdFromReceipt rest
          else extractTokenIdFromReceipt rest from rfl]
    by_cases hshape : log.topics.headD "" = transferEventSignature ∧ log.topics.length = 4
    · rw [if_pos hshape]
      rcases ha : parseTopicAddress (log.topics.getD 1 "") with _ | fromAddr
      · rfl
      · dsimp only
        rcases hb : jsBigIntOfString (log.topics.getD 3 "") with _ | tokenId
        · rfl
        · dsimp only
          by_cases hz : fromAddr = ethersZeroAddress
          · exfalso
            have hm : isMintLog log = true := by
              unfold isMintLog
              simp only [Bool.and_eq_true, beq_iff_eq]
              refine ⟨⟨⟨hshape.1, hshape.2⟩, ?_⟩, ?_⟩
              · rw [ha, hz]
              · rw [hb]
                rfl
            rw [hall log (List.mem_cons_self _ _)] at hm
            cases hm
          · rw [if_neg hz]
            exact ih (fun l hl => hall l (List.mem_cons_of_mem _ hl))
    · rw [if_neg hshape]
      exact ih (fun l hl => hall l (List.mem_cons_of_mem _ hl))

/-- Claim C8: whenever `extractTokenIdFromReceipt` returns a token id,
it is the decoded token id of a Transfer log of the receipt whose `from`
address is the zero address (a mint event); and when no such log exists
in the receipt, extraction yields null and `mintAgentIdentity` fails
with the extraction error surfaced to the caller instead of returning an
identifier. -/
theorem claim_C8_mint_event_extraction :
    (∀ (logs : List EthLog) (tid : String),
      extractTokenIdFromReceipt logs = some tid →
      ∃ l, l ∈ logs ∧ isMintLog l = true ∧ mintTokenIdOf l = some tid)
    ∧ (∀ logs : List EthLog, (∀ l ∈ logs, isMintLog l = false) →
        extractTokenIdFromReceipt logs = none
        ∧ ∀ chainId contractAddress : String,
            mintAgentIdentityFinalize chainId contractAddress logs
              = Except.error "Failed to extract token ID from transaction receipt") := by
  refine ⟨extract_sound, ?_⟩
  intro logs hall
  have hnone := extract_none logs hall
  exact ⟨hnone, fun c a => by simp [mintAgentIdentityFinalize, hnone]⟩

/-- Witness for claim C8: a receipt holding only a non-Transfer log
makes minting fail, and a receipt holding a mint Transfer log yields its
token id. -/
theorem claim_C8_witness :
    ((∀ l ∈ [EthLog.mk ["0xdead"]], isMintLog l = false)
      ∧ extractTokenIdFromReceipt [EthLog.mk ["0xdead"]] = none
      ∧ mintAgentIdentityFinalize "84532" "0xc0ffee" [EthLog.mk ["0xdead"]]
          = Except.error "Failed to extract token ID from transaction receipt")
    ∧ (∃ l, l ∈ [EthLog.mk
          ["0xddf252ad1be2c89b69c2b068fc378daa952ba7f163c4a11628f55a4df523b3ef",
           "0x0000000000000000000000000000000000000000000000000000000000000000",
           "0x000000000000000000000000aabbccddeeff00112233445566778899aabbccdd",
           "0x000000000000000000000000000000000000000000000000000000000000002a"]]
        ∧ isMintLog l = true ∧ mintTokenIdOf l = some "42") := by
  constructor
  · have hall : ∀ l ∈ [EthLog.mk ["0xdead"]], isMintLog l = false := by decide
    have h := claim_C8_mint_event_extraction.2 [EthLog.mk ["0xdead"]] hall
    exact ⟨hall, h.1, h.2 "84532" "0xc0ffee"⟩
  · exact claim_C8_mint_event_extraction.1 _ "42" (by decide)
